import Mathlib

/-!
Verification of the bablib documentation-crawler subsystem and its
routing/MCP layers.

The repository sources under verification are:
  - `src/services/fill_service.py` (type-based fill routing, drag-fill path)
  - `src/logic/mcp/services/shelf_mcp_service.py` (MCP shelf/box listings)
  - manual tests `tests/manual/test_direct_worker.py`,
    `tests/manual/test_crawl_directly.py` (callers of the crawler facade)

The crawler core (`src/logic/crawler/core/crawler.py`: DocumentationCrawler,
Frontier, ContentDeduplicator, RobotsCache, DomainThrottle, CrawlSession) is
referenced by these files but its code is not in the source tree; the
definitions below that concern it are modelled from the specification
(sections 3-4.7), with worker iterations sequentialized into atomic steps.
-/

/-! ## CrawlSession state machine (modelled from the spec, section 4.5) -/

/-- Lifecycle phase of a crawl session. Modelled from the spec:
`status ∈ {pending, running, completed, failed, stopped}`. -/
inductive CrawlStatus where
  | pending
  | running
  | completed
  | failed
  | stopped
deriving DecidableEq, Repr

/-- A status is terminal when it is `completed`, `failed` or `stopped`. -/
def CrawlStatus.isTerminal : CrawlStatus → Bool
  | .completed => true
  | .failed => true
  | .stopped => true
  | _ => false

/-- Modelled from the spec: persisted crawl-session record
`{ id, target_id, status, pages_crawled, pages_failed, started_at,
completed_at }` (code of `CrawlSession` is not under src/). -/
structure CrawlSession where
  id : Nat
  target_id : Nat
  status : CrawlStatus
  pages_crawled : Nat
  pages_failed : Nat
  started_at : Option Nat
  completed_at : Option Nat
deriving DecidableEq, Repr

/-- The freshly created session: `pending`, zero counters, no timestamps. -/
def initialSession (id target_id : Nat) : CrawlSession :=
  { id := id
    target_id := target_id
    status := .pending
    pages_crawled := 0
    pages_failed := 0
    started_at := none
    completed_at := none }

/-- Worker-pool budget gate, modelled from the spec (section 4.6 step 2):
a worker accepts new work only while `pages_crawled + pages_failed` is
strictly below `max_pages` (no constraint when `max_pages` is unset). -/
def budgetAllows (maxPages : Option Nat) (s : CrawlSession) : Prop :=
  ∀ p, maxPages = some p → s.pages_crawled + s.pages_failed < p

/-- Modelled from the spec (sections 4.5-4.6): the atomic transitions of a
crawl session.  `start` is worker-pool start; `pageOk`/`pageFail` are one
worker iteration reporting a completed fetch attempt, gated by the page
budget; `complete`/`fail`/`stop` are the three terminal transitions out of
`running`, each stamping `completed_at`. -/
inductive SessionStep (mp : Option Nat) : CrawlSession → CrawlSession → Prop
  | start (s : CrawlSession) (t : Nat) :
      s.status = .pending →
      SessionStep mp s { s with status := .running, started_at := some t }
  | pageOk (s : CrawlSession) :
      s.status = .running → budgetAllows mp s →
      SessionStep mp s { s with pages_crawled := s.pages_crawled + 1 }
  | pageFail (s : CrawlSession) :
      s.status = .running → budgetAllows mp s →
      SessionStep mp s { s with pages_failed := s.pages_failed + 1 }
  | complete (s : CrawlSession) (t : Nat) :
      s.status = .running →
      SessionStep mp s { s with status := .completed, completed_at := some t }
  | fail (s : CrawlSession) (t : Nat) :
      s.status = .running →
      SessionStep mp s { s with status := .failed, completed_at := some t }
  | stop (s : CrawlSession) (t : Nat) :
      s.status = .running →
      SessionStep mp s { s with status := .stopped, completed_at := some t }

/-- States of a session reachable during its lifetime, from creation on. -/
inductive SessionReachable (mp : Option Nat) (id tid : Nat) : CrawlSession → Prop
  | init : SessionReachable mp id tid (initialSession id tid)
  | step {s s' : CrawlSession} :
      SessionReachable mp id tid s → SessionStep mp s s' →
      SessionReachable mp id tid s'

/-- Claim C1: for every crawl session whose target has `max_pages = p`, the
sum `pages_crawled + pages_failed` never exceeds `p` in any state reachable
during the session's lifetime, terminal states included. -/
theorem c1_page_budget_invariant (p id tid : Nat) (s : CrawlSession)
    (h : SessionReachable (some p) id tid s) :
    s.pages_crawled + s.pages_failed ≤ p := by
  induction h with
  | init => simp [initialSession]
  | step _ hstep ih =>
    cases hstep with
    | start t _ => simpa using ih
    | pageOk _ hb =>
      have := hb p rfl
      simp only []
      omega
    | pageFail _ hb =>
      have := hb p rfl
      simp only []
      omega
    | complete t _ => simpa using ih
    | fail t _ => simpa using ih
    | stop t _ => simpa using ih

/-- Witness for C1 at a concrete run: pending session started, one page
crawled, then completed, under `max_pages = 2`. -/
theorem c1_page_budget_invariant_witness :
    ∃ s : CrawlSession, SessionReachable (some 2) 1 7 s ∧
      s.pages_crawled + s.pages_failed ≤ 2 := by
  have h0 : SessionReachable (some 2) 1 7 (initialSession 1 7) :=
    SessionReachable.init
  have h1 := SessionReachable.step h0 (SessionStep.start (initialSession 1 7) 10 rfl)
  have h2 := SessionReachable.step h1
    (SessionStep.pageOk _ rfl (by intro q hq; cases hq; decide))
  have h3 := SessionReachable.step h2 (SessionStep.complete _ 20 rfl)
  exact ⟨_, h3, c1_page_budget_invariant 2 1 7 _ h3⟩

/-- Claim C2: the session status follows
`pending → running → {completed, failed, stopped}` and terminal states are
absorbing: (i) no transition leaves a terminal state; (ii) in every
reachable state, `completed_at` is set exactly when the status is terminal;
(iii) every transition either enters a terminal state for the first time,
stamping `completed_at`, or leaves both the terminal flag and `completed_at`
untouched. -/
theorem c2_status_state_machine (mp : Option Nat) :
    (∀ s s' : CrawlSession, s.status.isTerminal = true → ¬ SessionStep mp s s')
    ∧ (∀ id tid : Nat, ∀ s : CrawlSession, SessionReachable mp id tid s →
        (s.completed_at.isSome ↔ s.status.isTerminal = true))
    ∧ (∀ s s' : CrawlSession, SessionStep mp s s' →
        (s'.status.isTerminal = s.status.isTerminal
          ∧ s'.completed_at = s.completed_at)
        ∨ (s.status.isTerminal = false ∧ s'.status.isTerminal = true
            ∧ s'.completed_at.isSome = true)) := by
  refine ⟨?_, ?_, ?_⟩
  · intro s s' hterm hstep
    cases hstep with
    | start t hs => rw [hs] at hterm; simp [CrawlStatus.isTerminal] at hterm
    | pageOk hs hb => rw [hs] at hterm; simp [CrawlStatus.isTerminal] at hterm
    | pageFail hs hb => rw [hs] at hterm; simp [CrawlStatus.isTerminal] at hterm
    | complete t hs => rw [hs] at hterm; simp [CrawlStatus.isTerminal] at hterm
    | fail t hs => rw [hs] at hterm; simp [CrawlStatus.isTerminal] at hterm
    | stop t hs => rw [hs] at hterm; simp [CrawlStatus.isTerminal] at hterm
  · intro id tid s h
    induction h with
    | init => simp [initialSession, CrawlStatus.isTerminal]
    | step _ hstep ih =>
      cases hstep with
      | start t hs => simpa [hs, CrawlStatus.isTerminal] using ih
      | pageOk hs hb => simpa [hs, CrawlStatus.isTerminal] using ih
      | pageFail hs hb => simpa [hs, CrawlStatus.isTerminal] using ih
      | complete t hs => simp [CrawlStatus.isTerminal]
      | fail t hs => simp [CrawlStatus.isTerminal]
      | stop t hs => simp [CrawlStatus.isTerminal]
  · intro s s' hstep
    cases hstep with
    | start t hs => exact Or.inl ⟨by simp [hs, CrawlStatus.isTerminal], rfl⟩
    | pageOk hs hb => exact Or.inl ⟨by simp [hs], rfl⟩
    | pageFail hs hb => exact Or.inl ⟨by simp [hs], rfl⟩
    | complete t hs =>
      exact Or.inr ⟨by simp [hs, CrawlStatus.isTerminal], by simp [CrawlStatus.isTerminal], rfl⟩
    | fail t hs =>
      exact Or.inr ⟨by simp [hs, CrawlStatus.isTerminal], by simp [CrawlStatus.isTerminal], rfl⟩
    | stop t hs =>
      exact Or.inr ⟨by simp [hs, CrawlStatus.isTerminal], by simp [CrawlStatus.isTerminal], rfl⟩

/-- Witness for C2: the completed concrete session from the C1 run has no
outgoing step, and its `completed_at` is set; the terminal transition that
produced it stamped `completed_at` for the first time. -/
theorem c2_status_state_machine_witness :
    (¬ SessionStep (some 2) { initialSession 1 7 with
        status := .completed, started_at := some 10,
        pages_crawled := 1, completed_at := some 20 } (initialSession 1 7))
    ∧ ((initialSession 1 7).completed_at.isSome ↔
        (initialSession 1 7).status.isTerminal = true) := by
  constructor
  · exact (c2_status_state_machine (some 2)).1 _ _ rfl
  · exact (c2_status_state_machine (some 2)).2.1 1 7 _ SessionReachable.init

/-! ## Frontier and URL normalization (modelled from the spec, sections 3, 4.1) -/

/-- Modelled from the spec: fragment stripping — drop everything from the
first `#` on (part of URL canonicalization; the crawler code is not under
src/). -/
def stripFragmentList : List Char → List Char
  | [] => []
  | c :: cs => if c = '#' then [] else c :: stripFragmentList cs

/-- Split a character list at the first `://`, returning the scheme before
it and the remainder after it, or `none` when no `://` occurs. -/
def splitScheme : List Char → Option (List Char × List Char)
  | [] => none
  | ':' :: '/' :: '/' :: rest => some ([], rest)
  | c :: cs =>
      match splitScheme cs with
      | none => none
      | some (sch, rest) => some (c :: sch, rest)

/-- Split a character list at the first `/`, returning the host before it
and the remainder from the `/` on. -/
def splitHost : List Char → List Char × List Char
  | [] => ([], [])
  | '/' :: cs => ([], '/' :: cs)
  | c :: cs =>
      let p := splitHost cs
      (c :: p.1, p.2)

/-- Modelled from the spec: scheme/host lowercasing — the scheme before
`://` and the host up to the first `/` of the remainder are lowercased,
the path is kept as is. -/
def lowerSchemeHostList (l : List Char) : List Char :=
  match splitScheme l with
  | none => l
  | some (sch, rest) =>
      let hp := splitHost rest
      (sch.map Char.toLower) ++ [':', '/', '/'] ++ (hp.1.map Char.toLower) ++ hp.2

/-- Modelled from the spec: trailing-slash normalization — remove a final
slash (kept when the string is the single slash). -/
def stripTrailingSlashList (l : List Char) : List Char :=
  if decide (l.length > 1) && (l.getLast? == some '/') then l.dropLast else l

/-- Modelled from the spec: URL canonicalization applied before VisitedSet
membership tests and before enqueue — scheme/host lowercasing, fragment
stripping, trailing-slash normalization. -/
def normalizeUrl (url : String) : String :=
  String.mk (stripTrailingSlashList (lowerSchemeHostList (stripFragmentList url.data)))

/-- Modelled from the spec: a frontier entry `{ url, depth, referrer }`. -/
structure FrontierEntry where
  url : String
  depth : Nat
  referrer : Option String
deriving DecidableEq, Repr

/-- Modelled from the spec: the Frontier — the FIFO work queue of entries
plus the VisitedSet of normalized URLs, bounded by the target's
`max_depth`. -/
structure Frontier where
  queue : List FrontierEntry
  visited : List String
  maxDepth : Nat
deriving DecidableEq, Repr

/-- Modelled from the spec (section 4.1): `enqueue(url, depth, referrer)`
returns false and leaves the frontier unchanged when the normalized URL is
already in the VisitedSet or `depth > max_depth`; otherwise it records the
normalized URL as visited, appends the entry to the queue tail, and returns
true. -/
def Frontier.enqueue (f : Frontier) (url : String) (depth : Nat)
    (referrer : Option String) : Bool × Frontier :=
  let n := normalizeUrl url
  if f.visited.contains n || depth > f.maxDepth then
    (false, f)
  else
    (true, { f with
        queue := f.queue ++ [{ url := n, depth := depth, referrer := referrer }]
        visited := n :: f.visited })

/-- Modelled from the spec (section 4.1): `dequeue` pulls the next entry in
first-in-first-out order, or reports the queue drained. -/
def Frontier.dequeue (f : Frontier) : Option FrontierEntry × Frontier :=
  match f.queue with
  | [] => (none, f)
  | e :: rest => (some e, { f with queue := rest })

/-- Claim C4: `enqueue` returns false and changes nothing exactly when the
normalized URL is already visited or the depth exceeds `max_depth`;
otherwise it normalizes, marks visited, appends to the queue and returns
true; and an immediate re-enqueue of the same URL after a successful
enqueue is a no-op. -/
theorem c4_enqueue_contract (f : Frontier) (url : String) (depth : Nat)
    (referrer : Option String) :
    ((f.visited.contains (normalizeUrl url) || decide (depth > f.maxDepth)) = true →
      f.enqueue url depth referrer = (false, f))
    ∧ ((f.visited.contains (normalizeUrl url) || decide (depth > f.maxDepth)) = false →
      f.enqueue url depth referrer =
        (true, { f with
            queue := f.queue ++
              [{ url := normalizeUrl url, depth := depth, referrer := referrer }]
            visited := normalizeUrl url :: f.visited }))
    ∧ (∀ depth2 : Nat, ∀ referrer2 : Option String,
        (f.enqueue url depth referrer).1 = true →
        ((f.enqueue url depth referrer).2.enqueue url depth2 referrer2) =
          (false, (f.enqueue url depth referrer).2)) := by
  refine ⟨?_, ?_, ?_⟩
  · intro h
    simp only [Frontier.enqueue, h, if_pos]
  · intro h
    simp only [Frontier.enqueue, h]
    rfl
  · intro depth2 referrer2 hsucc
    by_cases h : (f.visited.contains (normalizeUrl url)
        || decide (depth > f.maxDepth)) = true
    · simp only [Frontier.enqueue, h] at hsucc
      exact absurd hsucc (by simp)
    · simp only [Bool.not_eq_true] at h
      simp only [Frontier.enqueue, h]
      simp [List.contains_cons]

/-- Witness for C4 on concrete data: enqueueing `HTTP://Ex.com/A#frag` into
an empty frontier succeeds, and a second enqueue of the same URL is a
no-op; enqueueing at depth 3 into a depth-2 frontier is rejected. -/
theorem c4_enqueue_contract_witness :
    (Frontier.enqueue { queue := [], visited := [], maxDepth := 2 }
        "HTTP://Ex.com/A#frag" 0 none =
      (true, { queue := [{ url := "http://ex.com/A", depth := 0, referrer := none }],
               visited := ["http://ex.com/A"], maxDepth := 2 }))
    ∧ (Frontier.enqueue { queue := [], visited := [], maxDepth := 2 }
        "http://ex.com/b" 3 none =
      (false, { queue := [], visited := [], maxDepth := 2 })) := by
  constructor
  · exact ((c4_enqueue_contract { queue := [], visited := [], maxDepth := 2 }
      "HTTP://Ex.com/A#frag" 0 none).2.1 (by decide)).trans (by decide)
  · exact (c4_enqueue_contract { queue := [], visited := [], maxDepth := 2 }
      "http://ex.com/b" 3 none).1 (by decide)

/-! ## ContentDeduplicator (modelled from the spec, sections 3, 4.4) -/

/-- Modelled from the spec: the per-session fingerprint map
`fingerprint → first URL that produced it` (crawler code not under src/). -/
structure ContentDeduplicator where
  canonical : List (String × String)
deriving DecidableEq, Repr

/-- Modelled from the spec (section 4.4): `register(fingerprint, url)`
returns true and records `url` as canonical on the first registration of a
fingerprint; every later registration of the same fingerprint returns
false and changes nothing. -/
def ContentDeduplicator.register (d : ContentDeduplicator) (fp url : String) :
    Bool × ContentDeduplicator :=
  match d.canonical.lookup fp with
  | some _ => (false, d)
  | none => (true, { canonical := (fp, url) :: d.canonical })

/-- Worker-side stored-page accounting, modelled from the spec (section 4.6
step 6): on a successful fetch the fingerprint is registered; a new
fingerprint persists the page, a duplicate persists nothing; `pages_crawled`
is incremented either way. -/
structure StoreState where
  dedup : ContentDeduplicator
  storedPages : List String
  pagesCrawled : Nat
deriving DecidableEq, Repr

/-- One successful fetch processed through deduplication, modelled from the
spec (section 4.6 step 6). -/
def processFetched (st : StoreState) (fp url : String) : StoreState :=
  let r := st.dedup.register fp url
  if r.1 then
    { dedup := r.2, storedPages := st.storedPages ++ [url],
      pagesCrawled := st.pagesCrawled + 1 }
  else
    { dedup := r.2, storedPages := st.storedPages,
      pagesCrawled := st.pagesCrawled + 1 }

/-- Claim C5: `register` returns true on the first registration of a
fingerprint, recording the URL as canonical, and false on every later
registration of the same fingerprint; consequently two fetches whose
fingerprints match store exactly one page while `pages_crawled` is
incremented for both. -/
theorem c5_dedup_register (d : ContentDeduplicator) (fp u1 u2 : String)
    (st : StoreState) :
    (d.canonical.lookup fp = none →
      d.register fp u1 = (true, { canonical := (fp, u1) :: d.canonical })
      ∧ (ContentDeduplicator.register { canonical := (fp, u1) :: d.canonical } fp u2)
          = (false, { canonical := (fp, u1) :: d.canonical }))
    ∧ (∀ v : String, (d.canonical.lookup fp).isSome →
        d.register fp v = (false, d))
    ∧ (st.dedup.canonical.lookup fp = none →
        processFetched (processFetched st fp u1) fp u2 =
          { dedup := { canonical := (fp, u1) :: st.dedup.canonical },
            storedPages := st.storedPages ++ [u1],
            pagesCrawled := st.pagesCrawled + 2 }) := by
  refine ⟨?_, ?_, ?_⟩
  · intro h
    constructor
    · simp [ContentDeduplicator.register, h]
    · simp [ContentDeduplicator.register, List.lookup]
  · intro v h
    rcases Option.isSome_iff_exists.mp h with ⟨w, hw⟩
    simp [ContentDeduplicator.register, hw]
  · intro h
    simp only [processFetched, ContentDeduplicator.register, h]
    simp [List.lookup]

/-- Witness for C5 on concrete data: two pages with the same fingerprint
`f1` processed from the empty state store only the first URL and count two
crawled pages. -/
theorem c5_dedup_register_witness :
    processFetched (processFetched
        { dedup := { canonical := [] }, storedPages := [], pagesCrawled := 0 }
        "f1" "http://a") "f1" "http://b" =
      { dedup := { canonical := [("f1", "http://a")] },
        storedPages := ["http://a"], pagesCrawled := 2 } := by
  exact (c5_dedup_register { canonical := [] } "f1" "http://a" "http://b"
    { dedup := { canonical := [] }, storedPages := [], pagesCrawled := 0 }).2.2 rfl

/-! ## DomainThrottle (modelled from the spec, sections 3, 4.2) -/

/-- Modelled from the spec: the per-domain last-access table
`{ domain, last_access_at }` (crawler code not under src/).  Time is in
seconds, represented as rationals. -/
structure DomainThrottle where
  last_access : List (String × ℚ)
deriving DecidableEq, Repr

/-- Modelled from the spec (section 4.2): `wait_if_needed(domain)` at call
time `now` computes `elapsed = now - last_access_at[domain]`; when
`elapsed < 1/rate_limit` it suspends the caller for the remaining
`1/rate_limit - elapsed` seconds; in every case it records the exit time as
the domain's new `last_access_at`.  Returns the exit time (the moment the
request is issued) with the updated table. -/
def DomainThrottle.wait_if_needed (rate_limit : ℚ) (st : DomainThrottle)
    (domain : String) (now : ℚ) : ℚ × DomainThrottle :=
  let interval := 1 / rate_limit
  match st.last_access.lookup domain with
  | none => (now, { last_access := (domain, now) :: st.last_access })
  | some last =>
      let elapsed := now - last
      if elapsed < interval then
        let exitTime := now + (interval - elapsed)
        (exitTime, { last_access := (domain, exitTime) :: st.last_access })
      else
        (now, { last_access := (domain, now) :: st.last_access })

/-- Claim C8: for any two consecutive requests to one domain, the recorded
access timestamps are never closer than `1/rate_limit` seconds apart: when
too little time has elapsed the caller is suspended exactly for the
remaining interval, and the domain's `last_access_at` is updated to the
exit time in every case, suspension or not. -/
theorem c8_throttle_spacing (rate_limit : ℚ) (st : DomainThrottle)
    (domain : String) (now last : ℚ)
    (hlast : st.last_access.lookup domain = some last) :
    1 / rate_limit ≤ (DomainThrottle.wait_if_needed rate_limit st domain now).1 - last
    ∧ ((DomainThrottle.wait_if_needed rate_limit st domain now).2.last_access.lookup
        domain = some (DomainThrottle.wait_if_needed rate_limit st domain now).1)
    ∧ (now - last < 1 / rate_limit →
        (DomainThrottle.wait_if_needed rate_limit st domain now).1 =
          now + (1 / rate_limit - (now - last)))
    ∧ (¬ (now - last < 1 / rate_limit) →
        (DomainThrottle.wait_if_needed rate_limit st domain now).1 = now) := by
  by_cases hc : now - last < 1 / rate_limit
  · have heq : DomainThrottle.wait_if_needed rate_limit st domain now =
        (now + (1 / rate_limit - (now - last)),
          { last_access :=
              (domain, now + (1 / rate_limit - (now - last))) :: st.last_access }) := by
      simp only [DomainThrottle.wait_if_needed, hlast, if_pos hc]
    refine ⟨?_, ?_, fun _ => by rw [heq], fun hn => absurd hc hn⟩
    · rw [heq]
      dsimp only
      linarith
    · rw [heq]
      simp [List.lookup]
  · have heq : DomainThrottle.wait_if_needed rate_limit st domain now =
        (now, { last_access := (domain, now) :: st.last_access }) := by
      simp only [DomainThrottle.wait_if_needed, hlast, if_neg hc]
    refine ⟨?_, ?_, fun hcon => absurd hcon hc, fun _ => by rw [heq]⟩
    · rw [heq]
      dsimp only
      linarith [not_lt.mp hc]
    · rw [heq]
      simp [List.lookup]

/-- Witness for C8 on concrete data: `rate_limit = 2` requests per second,
previous access at `t = 0`, call at `t = 1/4`: the caller exits at
`t = 1/2`, half a second after the previous access. -/
theorem c8_throttle_spacing_witness :
    (1 : ℚ) / 2 ≤
      (DomainThrottle.wait_if_needed 2 { last_access := [("ex.com", 0)] }
        "ex.com" (1 / 4)).1 - 0 := by
  exact (c8_throttle_spacing 2 { last_access := [("ex.com", 0)] } "ex.com"
    (1 / 4) 0 (by simp [List.lookup])).1

/-! ## RobotsCache (modelled from the spec, sections 3, 4.3) -/

/-- Modelled from the spec: outcome of one attempt to fetch and parse a
domain's robots.txt — success yields disallow rules and an optional
crawl-delay; timeout, 4xx/5xx and malformed bodies are all failures
(crawler code not under src/). -/
inductive RobotsFetch where
  | ok (disallow : List String) (crawl_delay : Option ℚ)
  | failed
deriving DecidableEq, Repr

/-- Modelled from the spec: cached per-domain robots record
`{ domain, disallow_rules, crawl_delay }`. -/
structure RobotsRecord where
  domain : String
  disallow : List String
  crawl_delay : Option ℚ
deriving DecidableEq, Repr

/-- The allow-all record cached for a domain whose robots.txt could not be
fetched: no disallow rules, no crawl-delay. -/
def allowAllRecord (domain : String) : RobotsRecord :=
  { domain := domain, disallow := [], crawl_delay := none }

/-- Modelled from the spec (section 4.3): fetch robots.txt with one retry —
the first successful attempt is parsed and kept; when both attempts fail the
allow-all record is produced. -/
def fetchRobotsWithRetry (domain : String) (attempt1 attempt2 : RobotsFetch) :
    RobotsRecord :=
  match attempt1 with
  | .ok d c => { domain := domain, disallow := d, crawl_delay := c }
  | .failed =>
      match attempt2 with
      | .ok d c => { domain := domain, disallow := d, crawl_delay := c }
      | .failed => allowAllRecord domain

/-- A record allows a URL when no disallow rule is a prefix of it. -/
def recordAllows (r : RobotsRecord) (url : String) : Bool :=
  !(r.disallow.any (fun rule => url.startsWith rule))

/-- Modelled from the spec: the per-session robots cache, one record per
domain, entries never expiring within the session. -/
structure RobotsCache where
  records : List (String × RobotsRecord)
deriving DecidableEq, Repr

/-- Modelled from the spec (section 4.3): `is_allowed` — on the first query
for a domain the robots.txt is fetched (with one retry) and the result
cached; later queries answer from the cache.  The session is returned
untouched: robots handling never alters session state. -/
def RobotsCache.is_allowed (c : RobotsCache) (s : CrawlSession)
    (domain url : String) (attempt1 attempt2 : RobotsFetch) :
    Bool × RobotsCache × CrawlSession :=
  match c.records.lookup domain with
  | some r => (recordAllows r url, c, s)
  | none =>
      let r := fetchRobotsWithRetry domain attempt1 attempt2
      (recordAllows r url, { records := (domain, r) :: c.records }, s)

/-- Claim C7: when both robots.txt fetch attempts for a domain fail, an
allow-all record is cached for that domain after the one retry, the query
answers true, the session is unchanged (robots unavailability never halts
or fails the session), and every subsequent query for that domain answers
true from the cache, as if allowed. -/
theorem c7_robots_failure_allows (c : RobotsCache) (s : CrawlSession)
    (domain url : String)
    (hmiss : c.records.lookup domain = none) :
    RobotsCache.is_allowed c s domain url .failed .failed =
      (true, { records := (domain, allowAllRecord domain) :: c.records }, s)
    ∧ (∀ url2 : String, ∀ s2 : CrawlSession, ∀ a1 a2 : RobotsFetch,
        RobotsCache.is_allowed
          { records := (domain, allowAllRecord domain) :: c.records }
          s2 domain url2 a1 a2 =
        (true, { records := (domain, allowAllRecord domain) :: c.records }, s2)) := by
  constructor
  · simp [RobotsCache.is_allowed, hmiss, fetchRobotsWithRetry, allowAllRecord,
      recordAllows]
  · intro url2 s2 a1 a2
    simp [RobotsCache.is_allowed, List.lookup, allowAllRecord, recordAllows]

/-- Witness for C7 on concrete data: with an empty cache and both fetch
attempts failing for `ex.com`, the query allows the URL, caches allow-all,
leaves the session untouched, and later queries stay allowed. -/
theorem c7_robots_failure_allows_witness :
    RobotsCache.is_allowed { records := [] } (initialSession 1 7)
        "ex.com" "http://ex.com/docs" .failed .failed =
      (true, { records := [("ex.com", allowAllRecord "ex.com")] },
        initialSession 1 7) := by
  exact (c7_robots_failure_allows { records := [] } (initialSession 1 7)
    "ex.com" "http://ex.com/docs" rfl).1

/-! ## Fill routing (from `src/services/fill_service.py`) and crawl entry
points (modelled from the spec, section 4.7) -/

/-- Box content types, from `src/models/box_type.py` as used by
`fill_service.py`: DRAG routes to the crawler, RAG to the uploader, BAG to
storage. -/
inductive BoxType where
  | drag
  | rag
  | bag
deriving DecidableEq, Repr

/-- String value of a box type, mirroring `box.type.value`. -/
def BoxType.value : BoxType → String
  | .drag => "drag"
  | .rag => "rag"
  | .bag => "bag"

/-- Result dictionary produced by `FillService.fill`
(`src/services/fill_service.py`), restricted to the fields common to all
branches. -/
structure FillResponse where
  success : Bool
  box_name : String
  box_type : String
  source : String
  error : Option String
deriving DecidableEq, Repr

/-- Faults `FillService.fill` can raise to its caller. -/
inductive FillServiceError where
  | boxNotFound (msg : String)
deriving DecidableEq, Repr

/-- Embedding of `FillService.fill` (`src/services/fill_service.py`, lines
34-86): a missing box raises `BoxNotFoundError` before the routing
`try`; inside the `try`, the operation is routed on the box type and any
exception the routed fill raises is converted to a returned dictionary with
`success = False` and the error text. The routed sub-fill is abstracted as
an `Except`-valued oracle per box type. -/
def FillService.fill (box_name source : String) (box : Option BoxType)
    (routed : BoxType → Except String FillResponse) :
    Except FillServiceError FillResponse :=
  match box with
  | none => .error (.boxNotFound ("Box " ++ box_name ++ " not found"))
  | some bt =>
      match routed bt with
      | .ok r => .ok r
      | .error e =>
          .ok { success := false, box_name := box_name,
                box_type := bt.value, source := source, error := some e }

/-- Faults the crawler facade can raise from `start_crawl`, modelled from
the spec (sections 4.7 and 7, class (a) target errors). -/
inductive StartCrawlError where
  | alreadyRunning
  | targetNotFound
deriving DecidableEq, Repr

/-- Modelled from the spec: the crawl-target descriptor
`{ id, seed_url, max_depth, max_pages, rate_limit, user_agent }`. -/
structure CrawlTarget where
  id : Nat
  seed_url : String
  max_depth : Nat
  max_pages : Option Nat
  rate_limit : ℚ
  user_agent : String
deriving DecidableEq, Repr

/-- Modelled from the spec (section 4.7): `start_crawl(target)` fails with
`AlreadyRunningError` when a session is active and with a target-not-found
error when the target does not exist; only on success is a session created.
The second component counts sessions created by the call. -/
def start_crawl (active : Bool) (target : Option CrawlTarget)
    (session_id : Nat) :
    Except StartCrawlError CrawlSession × Nat :=
  if active then (.error .alreadyRunning, 0)
  else
    match target with
    | none => (.error .targetNotFound, 0)
    | some t => (.ok (initialSession session_id t.id), 1)

/-- One completed fetch attempt absorbed into session counters, modelled
from the spec (section 4.6 steps 6-7): success increments `pages_crawled`,
failure increments `pages_failed`; neither raises. -/
def applyFetchOutcome (s : CrawlSession) (ok : Bool) : CrawlSession :=
  if ok then { s with pages_crawled := s.pages_crawled + 1 }
  else { s with pages_failed := s.pages_failed + 1 }

/-- Modelled from the spec (section 4.7): `wait_for_completion` absorbs
every per-page outcome into the session's counters and returns the session
in a terminal state; it is a total function — no fault propagates to the
caller. -/
def wait_for_completion (s : CrawlSession) (outcomes : List Bool) (t : Nat) :
    CrawlSession :=
  let s1 := outcomes.foldl applyFetchOutcome s
  { s1 with status := .completed, completed_at := some t }

/-- Counters after folding a list of fetch outcomes: successes and failures
are counted separately, nothing is lost. -/
theorem foldl_applyFetchOutcome (outcomes : List Bool) (s : CrawlSession) :
    (outcomes.foldl applyFetchOutcome s).pages_crawled =
      s.pages_crawled + outcomes.count true
    ∧ (outcomes.foldl applyFetchOutcome s).pages_failed =
      s.pages_failed + outcomes.count false := by
  induction outcomes generalizing s with
  | nil => simp
  | cons b bs ih =>
    cases b with
    | true =>
      have h := ih (applyFetchOutcome s true)
      simp only [List.foldl_cons, List.count_cons]
      simp only [applyFetchOutcome] at h ⊢
      simp at h ⊢
      omega
    | false =>
      have h := ih (applyFetchOutcome s false)
      simp only [List.foldl_cons, List.count_cons]
      simp only [applyFetchOutcome] at h ⊢
      simp at h ⊢
      omega

/-- Claim C3: the crawl entry points surface only target errors —
`start_crawl` fails with `AlreadyRunningError` when a session is active and
with a not-found error when the target is missing, creating no session in
either case; `wait_for_completion` absorbs every per-page failure into the
counters of a terminal session instead of raising; and in the routing
layer, `FillService.fill` raises `BoxNotFoundError` for a missing box but
converts any exception of the routed fill into a returned dictionary with
`success = false`. -/
theorem c3_error_surface (box_name source : String)
    (routed : BoxType → Except String FillResponse)
    (target : Option CrawlTarget) (sid t : Nat)
    (s : CrawlSession) (outcomes : List Bool) :
    start_crawl true target sid = (.error .alreadyRunning, 0)
    ∧ start_crawl false none sid = (.error .targetNotFound, 0)
    ∧ ((wait_for_completion s outcomes t).pages_crawled =
          s.pages_crawled + outcomes.count true
        ∧ (wait_for_completion s outcomes t).pages_failed =
          s.pages_failed + outcomes.count false
        ∧ (wait_for_completion s outcomes t).status.isTerminal = true)
    ∧ FillService.fill box_name source none routed =
        .error (.boxNotFound ("Box " ++ box_name ++ " not found"))
    ∧ (∀ bt : BoxType, ∀ e : String, routed bt = .error e →
        FillService.fill box_name source (some bt) routed =
          .ok { success := false, box_name := box_name,
                box_type := bt.value, source := source, error := some e }) := by
  refine ⟨rfl, rfl, ?_, rfl, ?_⟩
  · refine ⟨?_, ?_, rfl⟩
    · exact (foldl_applyFetchOutcome outcomes s).1
    · exact (foldl_applyFetchOutcome outcomes s).2
  · intro bt e he
    simp [FillService.fill, he]

/-- Witness for C3 on concrete data: a routed drag fill that raises is
converted into a `success = false` dictionary. -/
theorem c3_error_surface_witness :
    FillService.fill "docs" "http://ex.com" (some .drag)
        (fun _ => .error "Failed to crawl") =
      .ok { success := false, box_name := "docs", box_type := "drag",
            source := "http://ex.com", error := some "Failed to crawl" } := by
  exact (c3_error_surface "docs" "http://ex.com"
    (fun _ => .error "Failed to crawl") none 0 0 (initialSession 0 0) []).2.2.2.2
    BoxType.drag "Failed to crawl" rfl

/-! ## Drag-fill cleanup paths (from `src/services/fill_service.py`,
`FillService._fill_drag`, lines 88-154) -/

/-- Result dictionary of a successful `_fill_drag`, restricted to the
fields the cleanup claim concerns. -/
structure DragFillResponse where
  success : Bool
  session_id : Nat
  pages_crawled : Nat
  pages_failed : Nat
deriving DecidableEq, Repr

/-- Embedding of `FillService._fill_drag` (`src/services/fill_service.py`,
lines 88-154).  Each awaited step is abstracted as an `Except`-valued
outcome; the second component records the cleanup calls performed, in
order.  The structure mirrors the source: `_update_box_url` swallows its
own errors; `db_manager.initialize()` and `crawler.initialize()` run
before the inner `try`; the inner `try` wraps `start_crawl` and
`wait_for_completion` with a `finally` that runs `crawler.cleanup()` then
`db_manager.cleanup()`; the outer `except` wraps any exception into a
`DatabaseError` and re-raises. -/
def fillDrag (dbInit crawlerInit : Except String Unit)
    (startCrawlR : Except String Nat)
    (waitR : Except String CrawlSession) :
    Except String DragFillResponse × List String :=
  match dbInit with
  | .error e => (.error ("Failed to crawl: " ++ e), [])
  | .ok _ =>
      match crawlerInit with
      | .error e => (.error ("Failed to crawl: " ++ e), [])
      | .ok _ =>
          let cleanups := ["crawler.cleanup", "db_manager.cleanup"]
          match startCrawlR with
          | .error e => (.error ("Failed to crawl: " ++ e), cleanups)
          | .ok sid =>
              match waitR with
              | .error e => (.error ("Failed to crawl: " ++ e), cleanups)
              | .ok fs =>
                  (.ok { success := true, session_id := sid,
                         pages_crawled := fs.pages_crawled,
                         pages_failed := fs.pages_failed }, cleanups)

/-- Counterexample to C9 as stated: in the drag-fill execution where
`crawler.initialize()` raises, neither `crawler.cleanup` nor
`db_manager.cleanup` is invoked — the `finally` block only wraps
`start_crawl`/`wait_for_completion`, so an initialization failure leaks
the database connection opened by `db_manager.initialize()`. -/
theorem c9_cleanup_counterexample :
    (fillDrag (.ok ()) (.error "crawler init failed") (.ok 1)
        (.ok (initialSession 1 7))).2 = []
    ∧ (fillDrag (.ok ()) (.error "crawler init failed") (.ok 1)
        (.ok (initialSession 1 7))).1 =
      .error "Failed to crawl: crawler init failed" := by
  exact ⟨rfl, rfl⟩

/-- Claim C9, amended: in every drag-fill execution in which
`db_manager.initialize()` and `crawler.initialize()` completed,
`crawler.cleanup` and `db_manager.cleanup` are both invoked, in that order,
regardless of whether `start_crawl` or `wait_for_completion` succeeded or
raised; when either initialization raises, no cleanup is invoked. -/
theorem c9_cleanup_after_init (startCrawlR : Except String Nat)
    (waitR : Except String CrawlSession) (e : String) :
    (fillDrag (.ok ()) (.ok ()) startCrawlR waitR).2 =
      ["crawler.cleanup", "db_manager.cleanup"]
    ∧ (fillDrag (.error e) (.ok ()) startCrawlR waitR).2 = []
    ∧ (fillDrag (.ok ()) (.error e) startCrawlR waitR).2 = [] := by
  refine ⟨?_, rfl, rfl⟩
  cases startCrawlR with
  | error e1 => rfl
  | ok sid =>
    cases waitR with
    | error e2 => rfl
    | ok fs => rfl

/-! ## MCP box file listing (from
`src/logic/mcp/services/shelf_mcp_service.py`, lines 86-117) -/

/-- A stored page row as read back by `db_manager.get_box_pages`, with the
fields `_get_box_file_list` projects. -/
structure StoredPage where
  url : String
  title : String
  status : String
  size_bytes : Option Nat
  crawled_at : Option String
deriving DecidableEq, Repr

/-- One entry of the per-basket file listing returned to MCP consumers. -/
structure FileListEntry where
  url : String
  title : String
  status : String
  size_bytes : Nat
  crawled_at : Option String
deriving DecidableEq, Repr

/-- Projection of a stored page into a file-list entry, mirroring the
dictionary built in `_get_box_file_list` (`size_bytes or 0`, crawled-at
rendered when present). -/
def pageToEntry (p : StoredPage) : FileListEntry :=
  { url := p.url, title := p.title, status := p.status,
    size_bytes := p.size_bytes.getD 0, crawled_at := p.crawled_at }

/-- Body of `ShelfMcpService._get_box_file_list` inside its `try`: DRAG
boxes look the box up and list at most the first 100 pages (`pages[:100]`);
a missing box and RAG/BAG boxes yield an empty list.  The box lookup and
page fetch are `Except`-valued oracles standing for the awaited calls. -/
def getBoxFileListCore (box_type : BoxType)
    (boxLookup : Except String (Option Nat))
    (getPages : Nat → Except String (List StoredPage)) :
    Except String (List FileListEntry) :=
  match box_type with
  | .drag =>
      match boxLookup with
      | .error e => .error e
      | .ok none => .ok []
      | .ok (some boxId) =>
          match getPages boxId with
          | .error e => .error e
          | .ok pages => .ok ((pages.take 100).map pageToEntry)
  | _ => .ok []

/-- Embedding of `ShelfMcpService._get_box_file_list`
(`src/logic/mcp/services/shelf_mcp_service.py`, lines 86-117): the whole
body runs under `try/except` and any exception is converted to an empty
list.  `get_shelf_structure` (lines 263-265) exposes this list unchanged
as a basket's `files` field. -/
def get_box_file_list (box_type : BoxType)
    (boxLookup : Except String (Option Nat))
    (getPages : Nat → Except String (List StoredPage)) : List FileListEntry :=
  match getBoxFileListCore box_type boxLookup getPages with
  | .ok l => l
  | .error _ => []

/-- Claim C10: the per-basket file listing holds at most 100 entries even
when the box stores more pages; RAG and BAG boxes always get an empty
list; and any error raised inside the helper (box lookup or page fetch)
yields an empty list instead of propagating. -/
theorem c10_file_list_bounded (box_type : BoxType)
    (boxLookup : Except String (Option Nat))
    (getPages : Nat → Except String (List StoredPage)) :
    (get_box_file_list box_type boxLookup getPages).length ≤ 100
    ∧ (box_type = .rag ∨ box_type = .bag →
        get_box_file_list box_type boxLookup getPages = [])
    ∧ (∀ e : String, boxLookup = .error e →
        get_box_file_list box_type boxLookup getPages = [])
    ∧ (∀ boxId : Nat, ∀ e : String,
        boxLookup = .ok (some boxId) → getPages boxId = .error e →
        get_box_file_list box_type boxLookup getPages = []) := by
  refine ⟨?_, ?_, ?_, ?_⟩
  · unfold get_box_file_list
    cases hcore : getBoxFileListCore box_type boxLookup getPages with
    | error e => simp
    | ok l =>
        simp only
        unfold getBoxFileListCore at hcore
        cases box_type with
        | drag =>
            cases boxLookup with
            | error e => cases hcore
            | ok ob =>
                cases ob with
                | none =>
                    injection hcore with hl
                    subst hl
                    simp
                | some boxId =>
                    dsimp only at hcore
                    cases hp : getPages boxId with
                    | error e => rw [hp] at hcore; cases hcore
                    | ok pages =>
                        rw [hp] at hcore
                        injection hcore with hl
                        subst hl
                        simp only [List.length_map, List.length_take]
                        omega
        | rag =>
            injection hcore with hl
            subst hl
            simp
        | bag =>
            injection hcore with hl
            subst hl
            simp
  · intro h
    rcases h with h | h <;> subst h <;> rfl
  · intro e he
    subst he
    cases box_type <;> rfl
  · intro boxId e hb hp
    subst hb
    cases box_type with
    | drag => simp [get_box_file_list, getBoxFileListCore, hp]
    | rag => rfl
    | bag => rfl

/-- Witness for C10 on concrete data: a DRAG box holding 101 identical
stored pages lists exactly 100 entries, and a RAG box lists none. -/
theorem c10_file_list_bounded_witness :
    (get_box_file_list .drag (.ok (some 5))
      (fun _ => .ok (List.replicate 101
        { url := "u", title := "t", status := "ok",
          size_bytes := none, crawled_at := none }))).length ≤ 100
    ∧ get_box_file_list .rag (.ok (some 5)) (fun _ => .ok []) = [] := by
  constructor
  · exact (c10_file_list_bounded .drag (.ok (some 5))
      (fun _ => .ok (List.replicate 101
        { url := "u", title := "t", status := "ok",
          size_bytes := none, crawled_at := none }))).1
  · exact (c10_file_list_bounded .rag (.ok (some 5))
      (fun _ => .ok [])).2.1 (Or.inl rfl)

/-! ## FIFO traversal order (modelled from the spec, sections 4.1, 4.6; the
seed at depth 0 matches the caller in `tests/manual/test_direct_worker.py`,
line 50) -/

/-- Modelled from the spec (section 4.6 step 6): after a fetch, every
outbound link of the processed entry is enqueued at the entry's depth plus
one, with the entry's URL as referrer.  The link extractor is a parameter
fixing the link-extraction order. -/
def expandEntry (links : String → List String) (f : Frontier)
    (e : FrontierEntry) : Frontier :=
  (links e.url).foldl
    (fun acc l => (acc.enqueue l (e.depth + 1) (some e.url)).2) f

/-- One sequentialized worker iteration of the crawl loop: dequeue the next
entry in FIFO order and enqueue its outbound links; `none` when the
frontier is drained. -/
def crawlStep (links : String → List String) (f : Frontier) :
    Option (FrontierEntry × Frontier) :=
  match f.dequeue with
  | (none, _) => none
  | (some e, f1) => some (e, expandEntry links f1 e)

/-- The sequence of entries processed by the crawl loop, bounded by fuel:
the traversal order of the session. -/
def crawlTrace (links : String → List String) : Nat → Frontier → List FrontierEntry
  | 0, _ => []
  | fuel + 1, f =>
      match crawlStep links f with
      | none => []
      | some (e, f2) => e :: crawlTrace links fuel f2

/-- Modelled from the spec (section 4.1) and
`tests/manual/test_direct_worker.py` line 50: the facade seeds the frontier
with the seed URL at depth 0 and no referrer. -/
def seedFrontier (maxDepth : Nat) (seedUrl : String) : Frontier :=
  (Frontier.enqueue { queue := [], visited := [], maxDepth := maxDepth }
    seedUrl 0 none).2

/-- Breadth-first queue invariant: entry depths are sorted nondecreasing
and any two entries in the queue are at most one level apart. -/
def queueInv (q : List FrontierEntry) : Prop :=
  List.Sorted (· ≤ ·) (q.map FrontierEntry.depth)
  ∧ ∀ x ∈ q, ∀ y ∈ q, x.depth ≤ y.depth + 1

/-- An `enqueue` either leaves the queue unchanged (rejected entry) or
appends exactly the normalized entry at the tail. -/
theorem enqueue_queue_cases (f : Frontier) (u : String) (d : Nat)
    (r : Option String) :
    (f.enqueue u d r).2.queue = f.queue
    ∨ (f.enqueue u d r).2.queue =
        f.queue ++ [{ url := normalizeUrl u, depth := d, referrer := r }] := by
  unfold Frontier.enqueue
  by_cases h : (f.visited.contains (normalizeUrl u) || decide (d > f.maxDepth)) = true
  · rw [if_pos h]
    exact Or.inl rfl
  · rw [if_neg h]
    exact Or.inr rfl

/-- Expanding an entry appends to the queue only entries one level deeper
than the entry, referred by the entry's URL. -/
theorem expand_queue_append (e : FrontierEntry) :
    ∀ us : List String, ∀ f : Frontier,
      ∃ tail : List FrontierEntry,
        (us.foldl (fun acc l => (acc.enqueue l (e.depth + 1) (some e.url)).2) f).queue
          = f.queue ++ tail
        ∧ ∀ x ∈ tail, x.depth = e.depth + 1 ∧ x.referrer = some e.url := by
  intro us
  induction us with
  | nil =>
      intro f
      exact ⟨[], by simp, by simp⟩
  | cons u us ih =>
      intro f
      rcases ih ((f.enqueue u (e.depth + 1) (some e.url)).2) with ⟨tail1, ht1, hp1⟩
      rcases enqueue_queue_cases f u (e.depth + 1) (some e.url) with h0 | h0
      · refine ⟨tail1, ?_, hp1⟩
        simpa [h0] using ht1
      · refine ⟨(⟨normalizeUrl u, e.depth + 1, some e.url⟩ : FrontierEntry)
            :: tail1, ?_, ?_⟩
        · simp only [List.foldl_cons]
          rw [ht1, h0, List.append_assoc]
          rfl
        · intro x hx
          rcases List.mem_cons.mp hx with hx | hx
          · subst hx
            exact ⟨rfl, rfl⟩
          · exact hp1 x hx

/-- A list whose elements are all equal is sorted. -/
theorem sorted_of_constant (c : Nat) :
    ∀ l : List Nat, (∀ x ∈ l, x = c) → List.Sorted (· ≤ ·) l := by
  intro l
  induction l with
  | nil => intro _; exact List.sorted_nil
  | cons a l ih =>
      intro h
      rw [List.sorted_cons]
      refine ⟨?_, ih (fun x hx => h x (List.mem_cons_of_mem a hx))⟩
      intro b hb
      rw [h a (List.mem_cons_self a l), h b (List.mem_cons_of_mem a hb)]

/-- One crawl step preserves the breadth-first queue invariant, and every
entry remaining in the queue is at least as deep as the entry just
dequeued. -/
theorem crawl_step_preserves_inv (links : String → List String)
    (f : Frontier) (e : FrontierEntry) (rest : List FrontierEntry)
    (hq : f.queue = e :: rest) (hinv : queueInv f.queue) :
    queueInv (expandEntry links { f with queue := rest } e).queue
    ∧ ∀ x ∈ (expandEntry links { f with queue := rest } e).queue,
        e.depth ≤ x.depth := by
  rcases hinv with ⟨hsorted, hwin⟩
  rw [hq] at hsorted hwin
  simp only [List.map_cons, List.sorted_cons] at hsorted
  rcases hsorted with ⟨hhead, hrest⟩
  rcases expand_queue_append e (links e.url) { f with queue := rest }
    with ⟨tail, htail, hprop⟩
  simp only at htail
  have hmemq : ∀ x ∈ (expandEntry links { f with queue := rest } e).queue,
      x ∈ rest ∨ x ∈ tail := by
    intro x hx
    rw [expandEntry] at hx
    rw [htail] at hx
    exact List.mem_append.mp hx
  have hrestatmost : ∀ x ∈ rest, x.depth ≤ e.depth + 1 := by
    intro x hx
    exact hwin x (List.mem_cons_of_mem e hx) e (List.mem_cons_self e rest)
  have hrestatleast : ∀ x ∈ rest, e.depth ≤ x.depth := by
    intro x hx
    exact hhead x.depth (List.mem_map_of_mem FrontierEntry.depth hx)
  constructor
  · constructor
    · rw [expandEntry, htail, List.map_append]
      refine List.pairwise_append.mpr ⟨hrest, ?_, ?_⟩
      · refine sorted_of_constant (e.depth + 1) _ ?_
        intro x hx
        rcases List.mem_map.mp hx with ⟨y, hy, hyx⟩
        rw [← hyx]
        exact (hprop y hy).1
      · intro a ha b hb
        rcases List.mem_map.mp ha with ⟨x, hxmem, hxa⟩
        rcases List.mem_map.mp hb with ⟨y, hymem, hyb⟩
        rw [← hxa, ← hyb, (hprop y hymem).1]
        exact hrestatmost x hxmem
    · intro x hx y hy
      rcases hmemq x hx with hx2 | hx2 <;> rcases hmemq y hy with hy2 | hy2
      · exact hwin x (List.mem_cons_of_mem e hx2) y (List.mem_cons_of_mem e hy2)
      · rw [(hprop y hy2).1]
        have := hrestatmost x hx2
        omega
      · rw [(hprop x hx2).1]
        have := hrestatleast y hy2
        omega
      · rw [(hprop x hx2).1, (hprop y hy2).1]
        omega
  · intro x hx
    rcases hmemq x hx with hx2 | hx2
    · exact hrestatleast x hx2
    · rw [(hprop x hx2).1]
      omega

/-- Along any crawl trace starting from a queue satisfying the
breadth-first invariant, processed depths are nondecreasing, and every
processed entry is at least as deep as some entry of the starting queue. -/
theorem crawl_trace_sorted (links : String → List String) :
    ∀ fuel : Nat, ∀ f : Frontier, queueInv f.queue →
      List.Sorted (· ≤ ·)
        ((crawlTrace links fuel f).map FrontierEntry.depth)
      ∧ ∀ x ∈ crawlTrace links fuel f, ∃ y ∈ f.queue, y.depth ≤ x.depth := by
  intro fuel
  induction fuel with
  | zero =>
      intro f _
      exact ⟨List.sorted_nil, by simp [crawlTrace]⟩
  | succ fuel ih =>
      intro f hinv
      cases hq : f.queue with
      | nil =>
          have htr : crawlTrace links (fuel + 1) f = [] := by
            simp [crawlTrace, crawlStep, Frontier.dequeue, hq]
          rw [htr]
          exact ⟨List.sorted_nil, by simp⟩
      | cons e rest =>
          have htr : crawlTrace links (fuel + 1) f =
              e :: crawlTrace links fuel
                (expandEntry links { f with queue := rest } e) := by
            simp [crawlTrace, crawlStep, Frontier.dequeue, hq]
          rcases crawl_step_preserves_inv links f e rest hq hinv with ⟨hinv2, hmin⟩
          rcases ih (expandEntry links { f with queue := rest } e) hinv2
            with ⟨hs, hm⟩
          rw [htr]
          constructor
          · rw [List.map_cons, List.sorted_cons]
            refine ⟨?_, hs⟩
            intro b hb
            rcases List.mem_map.mp hb with ⟨x, hx, hxb⟩
            rcases hm x hx with ⟨y, hy, hle⟩
            rw [← hxb]
            exact le_trans (hmin y hy) hle
          · intro x hx
            rcases List.mem_cons.mp hx with hx | hx
            · subst hx
              exact ⟨x, by simp [hq], le_refl _⟩
            · rcases hm x hx with ⟨y, hy, hle⟩
              exact ⟨e, by simp [hq], le_trans (hmin y hy) hle⟩

/-- The seeded frontier holds exactly the normalized seed at depth 0 with
no referrer, and has the seed marked visited. -/
theorem seed_queue_eq (d : Nat) (u : String) :
    (seedFrontier d u).queue =
      [{ url := normalizeUrl u, depth := 0, referrer := none }]
    ∧ (seedFrontier d u).visited = [normalizeUrl u] := by
  unfold seedFrontier Frontier.enqueue
  simp

/-- Claim C6: the Frontier dequeues in strict first-in-first-out order with
no reordering (head off, tail kept, empty reports drained), the seed URL
enters at depth 0 with no referrer, every link discovered from an entry is
enqueued at the entry's depth plus one with the entry as referrer, and the
resulting traversal — a deterministic function of the link-extraction
order — processes entries in nondecreasing depth order, i.e.
breadth-first. -/
theorem c6_fifo_breadth_first (links : String → List String) (maxDepth : Nat)
    (seedUrl : String) :
    (∀ f : Frontier, ∀ e : FrontierEntry, ∀ rest : List FrontierEntry,
        f.queue = e :: rest → f.dequeue = (some e, { f with queue := rest }))
    ∧ (∀ f : Frontier, f.queue = [] → f.dequeue = (none, f))
    ∧ (seedFrontier maxDepth seedUrl).queue =
        [{ url := normalizeUrl seedUrl, depth := 0, referrer := none }]
    ∧ (∀ f : Frontier, ∀ e x : FrontierEntry,
        x ∈ (expandEntry links f e).queue →
        x ∈ f.queue ∨ (x.depth = e.depth + 1 ∧ x.referrer = some e.url))
    ∧ (∀ fuel : Nat,
        List.Sorted (· ≤ ·)
          ((crawlTrace links fuel (seedFrontier maxDepth seedUrl)).map
            FrontierEntry.depth)) := by
  refine ⟨?_, ?_, (seed_queue_eq maxDepth seedUrl).1, ?_, ?_⟩
  · intro f e rest h
    simp [Frontier.dequeue, h]
  · intro f h
    simp [Frontier.dequeue, h]
  · intro f e x hx
    rcases expand_queue_append e (links e.url) f with ⟨tail, htail, hprop⟩
    rw [expandEntry] at hx
    rw [htail] at hx
    rcases List.mem_append.mp hx with hx | hx
    · exact Or.inl hx
    · exact Or.inr (hprop x hx)
  · intro fuel
    have hseedinv : queueInv (seedFrontier maxDepth seedUrl).queue := by
      rw [(seed_queue_eq maxDepth seedUrl).1]
      constructor
      · simp
      · intro x hx y hy
        simp only [List.mem_singleton] at hx hy
        subst hx
        subst hy
        omega
    exact (crawl_trace_sorted links fuel (seedFrontier maxDepth seedUrl)
      hseedinv).1

/-- Witness for C6 on concrete data: a two-entry frontier dequeues its head
first, keeping the tail in order, and the empty frontier reports drained. -/
theorem c6_fifo_breadth_first_witness :
    Frontier.dequeue
        { queue := [{ url := "http://a", depth := 0, referrer := none },
                    { url := "http://b", depth := 1, referrer := some "http://a" }],
          visited := ["http://a", "http://b"], maxDepth := 2 } =
      (some { url := "http://a", depth := 0, referrer := none },
        { queue := [{ url := "http://b", depth := 1, referrer := some "http://a" }],
          visited := ["http://a", "http://b"], maxDepth := 2 })
    ∧ Frontier.dequeue { queue := [], visited := [], maxDepth := 2 } =
      (none, { queue := [], visited := [], maxDepth := 2 }) := by
  constructor
  · exact (c6_fifo_breadth_first (fun _ => []) 2 "http://a").1 _ _ _ rfl
  · exact (c6_fifo_breadth_first (fun _ => []) 2 "http://a").2.1 _ rfl
